import Mathlib

/-!
# Verification of the world-events feed aggregator

Shallow embedding of the aggregation route (`normalizeEvent` and `GET` in
`src/app/api/events/route.ts`) of the news-feed aggregation repository.

JavaScript runtime facilities are embedded as follows:
* `Date` parsing (`new Date(s).getTime()`) and formatting
  (`new Date(t).toISOString()`) are abstracted as a `JSDate` record of two
  functions; an invalid date is `none` (JS `NaN`), and
  `new Date(s).toISOString()` throwing a `RangeError` on an invalid date is
  modelled with `Except`.
* `Buffer.from(url).toString("base64url")` is embedded as UTF-8 encoding of
  the string's code points followed by unpadded base64url encoding.
* `rss-parser` results are abstracted as a `fetch` function from a source to
  `Except Unit (List RawItem)`; `Except.error` covers network failure,
  timeout and parse failure of `parser.parseURL`.
* `Number.parseInt(s, 10)` is embedded exactly (leading whitespace, optional
  sign, longest digit run, `none` for JS `NaN`); the double-precision range
  of JS numbers is idealised to unbounded integers.
* `Map` insertion (insert-if-absent, iteration in insertion order) is
  embedded as an association list accumulated in order.
* `Array.prototype.sort`, which is required to be stable, is embedded as
  `List.mergeSort` with the comparator of the source (a comparator result
  that would be `NaN` in JS is treated as `0`, as the ECMAScript
  `SortCompare` operation prescribes).
The wall-clock `fetchedAt` field and the HTTP cache-control headers of the
response lie outside the pure model; the modelled response carries the
`events` and `sources` fields.
-/

/-- Source descriptor from the feed source registry (`lib/eventSources`). -/
structure EventSource where
  id : String
  name : String
  homepage : String
  feed : String
  regions : List String
  deriving DecidableEq, Repr

/-- The canonical event record (`WorldEvent` in the source). -/
structure WorldEvent where
  id : String
  title : String
  summary : String
  url : String
  sourceName : String
  sourceId : String
  sourceHomepage : String
  publishedAt : String
  regions : List String
  image : Option String
  deriving DecidableEq, Repr

/-- One entry of the raw item's `media:content` array: either it is not an
object exposing a `url` key (`hasUrlKey = false`), or it is, and its `url`
value is the given optional string. -/
structure MediaEntry where
  hasUrlKey : Bool
  url : Option String
  deriving DecidableEq, Repr

/-- The unnormalized feed item (`Parser.Item` fields the route reads).
`mediaContent = none` models a `media:content` value that is not an array. -/
structure RawItem where
  link : Option String
  title : Option String
  isoDate : Option String
  pubDate : Option String
  contentSnippet : Option String
  content : Option String
  enclosureUrl : Option String
  mediaContent : Option (List MediaEntry)
  deriving DecidableEq, Repr

/-- Abstraction of the JavaScript `Date` built-in: `parse s` is
`new Date(s).getTime()` (`none` for an invalid date, i.e. JS `NaN`), and
`toISO t` is `new Date(t).toISOString()` for a finite time value `t`
(milliseconds since the epoch). -/
structure JSDate where
  parse : String → Option Int
  toISO : Int → String

/-- The base64url alphabet, in value order. -/
def b64Alphabet : List Char :=
  ['A', 'B', 'C', 'D', 'E', 'F', 'G', 'H', 'I', 'J', 'K', 'L', 'M',
   'N', 'O', 'P', 'Q', 'R', 'S', 'T', 'U', 'V', 'W', 'X', 'Y', 'Z',
   'a', 'b', 'c', 'd', 'e', 'f', 'g', 'h', 'i', 'j', 'k', 'l', 'm',
   'n', 'o', 'p', 'q', 'r', 's', 't', 'u', 'v', 'w', 'x', 'y', 'z',
   '0', '1', '2', '3', '4', '5', '6', '7', '8', '9', '-', '_']

/-- The character for a 6-bit value in the base64url alphabet. -/
def b64Char (n : Nat) : Char := b64Alphabet.getD n 'A'

/-- Unpadded base64url encoding of a byte sequence, as produced by Node's
`buf.toString("base64url")`. -/
def base64urlEncode : List Nat → List Char
  | [] => []
  | [b0] => [b64Char (b0 / 4), b64Char (b0 % 4 * 16)]
  | [b0, b1] =>
    [b64Char (b0 / 4), b64Char (b0 % 4 * 16 + b1 / 16), b64Char (b1 % 16 * 4)]
  | b0 :: b1 :: b2 :: rest =>
    b64Char (b0 / 4) :: b64Char (b0 % 4 * 16 + b1 / 16) ::
    b64Char (b1 % 16 * 4 + b2 / 64) :: b64Char (b2 % 64) ::
    base64urlEncode rest

/-- UTF-8 encoding of one code point, with bytes as natural numbers. -/
def utf8Enc (n : Nat) : List Nat :=
  if n < 128 then [n]
  else if n < 2048 then [192 + n / 64, 128 + n % 64]
  else if n < 65536 then [224 + n / 4096, 128 + n / 64 % 64, 128 + n % 64]
  else [240 + n / 262144, 128 + n / 4096 % 64, 128 + n / 64 % 64, 128 + n % 64]

/-- The UTF-8 bytes of a string (`Buffer.from(s)` for a JS string). -/
def utf8Bytes (s : String) : List Nat :=
  s.data.flatMap (fun c => utf8Enc c.toNat)

/-- `Buffer.from(s).toString("base64url")`. -/
def base64urlOfString (s : String) : String :=
  String.mk (base64urlEncode (utf8Bytes s))

/-- The event id computed by `normalizeEvent`:
`${source.id}:${Buffer.from(url).toString("base64url")}`. -/
def makeId (sourceId url : String) : String :=
  sourceId ++ ":" ++ base64urlOfString url

/-- The JS `\s` character class, restricted to the ASCII whitespace
characters plus NBSP (sufficient for this model). -/
def jsSpace (c : Char) : Bool :=
  c = ' ' || c = '\t' || c = '\n' || c = '\r' || c = '\x0b' || c = '\x0c' ||
  c = ' '

/-- JS `String.prototype.trim`: strip leading and trailing whitespace. -/
def jsTrim (s : String) : String :=
  String.mk (((s.data.dropWhile jsSpace).reverse.dropWhile jsSpace).reverse)

/-- JS `String.prototype.toLowerCase` on one character (ASCII range, which
is all this model needs). -/
def jsLowerChar (c : Char) : Char :=
  if 'A' ≤ c && c ≤ 'Z' then Char.ofNat (c.toNat + 32) else c

/-- JS `String.prototype.toLowerCase`. -/
def jsToLower (s : String) : String :=
  String.mk (s.data.map jsLowerChar)

/-- `value.replace(/\s+/g, " ")` on the character list: every maximal run of
whitespace becomes a single space. The boolean argument records whether the
previous character belonged to a whitespace run. -/
def collapseWSAux : Bool → List Char → List Char
  | _, [] => []
  | inRun, c :: rest =>
    if jsSpace c then
      if inRun then collapseWSAux true rest
      else ' ' :: collapseWSAux true rest
    else c :: collapseWSAux false rest

/-- `value.replace(/\s+/g, " ")`. -/
def collapseWS (l : List Char) : List Char :=
  collapseWSAux false l

/-- `sanitizeSummary` of the source: empty for a missing/empty value, else
whitespace runs collapsed to single spaces and the result trimmed. -/
def sanitizeSummary (value : Option String) : String :=
  match value with
  | none => ""
  | some v => if v.isEmpty then "" else jsTrim (String.mk (collapseWS v.data))

/-- The regex test `/^https?:\/\//.test(u)`. -/
def isHttpUrl (u : String) : Bool :=
  "http://".data.isPrefixOf u.data || "https://".data.isPrefixOf u.data

/-- The repeated guard of the image logic: a URL is accepted when it is
truthy and passes the HTTP(S) pattern test. -/
def urlIfHttp (u : String) : Option String :=
  if !u.isEmpty && isHttpUrl u then some u else none

/-- The `media:content` half of the image resolution (source lines 54-62):
the first entry exposing a `url` key is found, and its URL is used only when
truthy and matching the pattern. -/
def mediaImage (item : RawItem) : Option String :=
  match item.mediaContent with
  | some entries =>
    match entries.find? (fun m => m.hasUrlKey) with
    | some m =>
      match m.url with
      | some u => urlIfHttp u
      | none => none
    | none => none
  | none => none

/-- Image resolution of `normalizeEvent` (source lines 48-62): the enclosure
URL if truthy and matching the HTTP(S) pattern; otherwise the
`media:content` fallback. -/
def resolveImage (item : RawItem) : Option String :=
  match item.enclosureUrl with
  | some u =>
    match urlIfHttp u with
    | some v => some v
    | none => mediaImage item
  | none => mediaImage item

/-- `item.isoDate ?? (item.pubDate ? new Date(item.pubDate).toISOString() :
undefined)`. The `Except.error` case is `new Date(pubDate).toISOString()`
raising `RangeError: Invalid time value` when `pubDate` does not parse. -/
def resolvePublishedAt (jd : JSDate) (item : RawItem) :
    Except Unit (Option String) :=
  match item.isoDate with
  | some iso => Except.ok (some iso)
  | none =>
    match item.pubDate with
    | some d =>
      if d.isEmpty then Except.ok none
      else
        match jd.parse d with
        | some t => Except.ok (some (jd.toISO t))
        | none => Except.error ()
    | none => Except.ok none

/-- `normalizeEvent` of the source: `Except.error` models the function
throwing (which the source code can do through `toISOString`),
`Except.ok none` models the `return null` rejection. -/
def normalizeEvent (jd : JSDate) (source : EventSource) (item : RawItem) :
    Except Unit (Option WorldEvent) :=
  match resolvePublishedAt jd item with
  | Except.error e => Except.error e
  | Except.ok publishedAt =>
    if ((item.title.map jsTrim).getD "").isEmpty ||
        (item.link.getD "").isEmpty || (publishedAt.getD "").isEmpty then
      Except.ok none
    else
      Except.ok (some
        { id := makeId source.id (item.link.getD "")
          title := (item.title.map jsTrim).getD ""
          summary :=
            let d1 := sanitizeSummary item.contentSnippet
            if d1.isEmpty then sanitizeSummary item.content else d1
          url := item.link.getD ""
          sourceId := source.id
          sourceName := source.name
          sourceHomepage := source.homepage
          publishedAt := publishedAt.getD ""
          regions := source.regions
          image := resolveImage item })

/-- `feed.items.map(normalizeEvent).`: JS `map` propagates the first thrown
exception, so the whole batch fails as soon as one item throws. -/
def normalizeBatch (jd : JSDate) (source : EventSource) :
    List RawItem → Except Unit (List (Option WorldEvent))
  | [] => Except.ok []
  | item :: rest =>
    match normalizeEvent jd source item with
    | Except.error e => Except.error e
    | Except.ok o =>
      match normalizeBatch jd source rest with
      | Except.error e => Except.error e
      | Except.ok os => Except.ok (o :: os)

/-- The per-source body of the `Promise.all` fan-out (source lines 94-104):
any failure of the fetch/parse or of the normalization map is caught and
yields the empty list for that source; otherwise the `null` rejections are
filtered out. -/
def processSource (jd : JSDate) (fetch : EventSource → Except Unit (List RawItem))
    (source : EventSource) : List WorldEvent :=
  match fetch source with
  | Except.error _ => []
  | Except.ok items =>
    match normalizeBatch jd source items with
    | Except.error _ => []
    | Except.ok opts => opts.filterMap id

/-- The query-string parameters of the request, each `none` when absent. -/
structure Params where
  query : Option String
  region : Option String
  limit : Option String
  deriving DecidableEq, Repr

deriving instance DecidableEq for Except

/-- The longest leading digit run of a character list, as a number
(`none` when there is no leading digit). -/
def digitsVal (cs : List Char) : Option Nat :=
  let ds := cs.takeWhile (fun c => c.isDigit)
  if ds.isEmpty then none
  else some (ds.foldl (fun a c => a * 10 + (c.toNat - 48)) 0)

/-- `Number.parseInt(s, 10)`: strip leading whitespace, read an optional
sign, then the longest digit run; `none` is JS `NaN`. -/
def parseIntJS (s : String) : Option Int :=
  match s.data.dropWhile jsSpace with
  | '-' :: rest => (digitsVal rest).map (fun n => -(n : Int))
  | '+' :: rest => (digitsVal rest).map (fun n => (n : Int))
  | cs => (digitsVal cs).map (fun n => (n : Int))

/-- `searchParams.get("query")?.trim().toLowerCase()`. -/
def resolvedQuery (p : Params) : Option String :=
  p.query.map (fun s => jsToLower (jsTrim s))

/-- `searchParams.get("region")?.toLowerCase()`. -/
def resolvedRegionParam (p : Params) : Option String :=
  p.region.map jsToLower

/-- `limit` resolution of the source (lines 82-83): `60` when the parameter
is absent or does not parse, otherwise the parsed value clamped up to `10`. -/
def resolvedLimit (p : Params) : Int :=
  match parseIntJS (p.limit.getD "") with
  | some v => max v 10
  | none => 60

/-- Region resolution (lines 85-86): the lowercased parameter when truthy
and different from `"global"`, else the sentinel `"global"`. -/
def resolvedRegion (p : Params) : String :=
  match resolvedRegionParam p with
  | some r => if !r.isEmpty && r != "global" then r else "global"
  | none => "global"

/-- Source selection (lines 88-91). -/
def selectedSources (registry : List EventSource) (p : Params) :
    List EventSource :=
  if resolvedRegion p = "global" then registry
  else registry.filter (fun s => s.regions.contains (resolvedRegion p))

/-- `results.flat()`: the per-source event lists in registry order, feed
order within each source. -/
def flattenedEvents (registry : List EventSource) (jd : JSDate)
    (fetch : EventSource → Except Unit (List RawItem)) (p : Params) :
    List WorldEvent :=
  ((selectedSources registry p).map (processSource jd fetch)).flatten

/-- The `Map`-building loop of the source (lines 108-114): an association
list in insertion order, inserting only when the url key is absent. -/
def uniqueLoop : List (String × WorldEvent) → List WorldEvent →
    List (String × WorldEvent)
  | m, [] => m
  | m, e :: rest =>
    if m.any (fun kv => kv.1 == e.url) then uniqueLoop m rest
    else uniqueLoop (m ++ [(e.url, e)]) rest

/-- `Array.from(unique.values())`: the deduplicated events, first occurrence
per url, in first-seen order. -/
def dedupByUrl (l : List WorldEvent) : List WorldEvent :=
  (uniqueLoop [] l).map Prod.snd

/-- The deduplicated flattened events. -/
def dedupedEvents (registry : List EventSource) (jd : JSDate)
    (fetch : EventSource → Except Unit (List RawItem)) (p : Params) :
    List WorldEvent :=
  dedupByUrl (flattenedEvents registry jd fetch p)

/-- JS `String.prototype.includes`: substring containment. -/
def jsIncludes (hay needle : String) : Bool :=
  (List.range (hay.data.length + 1)).any
    (fun i => needle.data.isPrefixOf (hay.data.drop i))

/-- The optional text filter (lines 118-123): applied only for a truthy
query, keeping events whose lowercased `title + " " + summary` contains the
query. -/
def queryFilteredEvents (registry : List EventSource) (jd : JSDate)
    (fetch : EventSource → Except Unit (List RawItem)) (p : Params) :
    List WorldEvent :=
  match resolvedQuery p with
  | some q =>
    if q.isEmpty then dedupedEvents registry jd fetch p
    else
      (dedupedEvents registry jd fetch p).filter
        (fun e => jsIncludes (jsToLower (e.title ++ " " ++ e.summary)) q)
  | none => dedupedEvents registry jd fetch p

/-- The sort comparator (lines 125-128):
`new Date(b.publishedAt).getTime() - new Date(a.publishedAt).getTime()`,
with the ECMAScript rule that a `NaN` comparator result counts as `0`. -/
def sortCmp (jd : JSDate) (a b : WorldEvent) : Int :=
  match jd.parse b.publishedAt, jd.parse a.publishedAt with
  | some tb, some ta => tb - ta
  | _, _ => 0

/-- `events.sort(comparator)`: a stable sort under the comparator. -/
def sortedEvents (registry : List EventSource) (jd : JSDate)
    (fetch : EventSource → Except Unit (List RawItem)) (p : Params) :
    List WorldEvent :=
  (queryFilteredEvents registry jd fetch p).mergeSort
    (fun a b => decide (sortCmp jd a b ≤ 0))

/-- One entry of the `sources` field of the response. -/
structure SourceMeta where
  id : String
  name : String
  homepage : String
  deriving DecidableEq, Repr

/-- The modelled response body: `events` (sorted, truncated) and `sources`
(the selected sources' display metadata). -/
structure AggResponse where
  events : List WorldEvent
  sources : List SourceMeta
  deriving DecidableEq, Repr

/-- The `GET` route handler, as a pure function of the registry, the
JS date semantics, the per-source fetch outcome, and the query parameters. -/
def GET (registry : List EventSource) (jd : JSDate)
    (fetch : EventSource → Except Unit (List RawItem)) (p : Params) :
    AggResponse :=
  { events := (sortedEvents registry jd fetch p).take (resolvedLimit p).toNat
    sources := (selectedSources registry p).map
      (fun s => { id := s.id, name := s.name, homepage := s.homepage }) }

/-! ## Auxiliary definitions for the verification -/

/-- Specification-level description of the dedup loop: keep the first
occurrence of each `url`, in first-seen order. -/
def keepFirst : List WorldEvent → List WorldEvent
  | [] => []
  | e :: rest => e :: keepFirst (rest.filter (fun x => !(x.url == e.url)))
termination_by l => l.length
decreasing_by
  simp only [List.length_cons]
  exact Nat.lt_succ_of_le (List.filter_sublist _).length_le

/-- The sort key of an event: its parsed publish instant (`0` when the
timestamp does not parse; the claims only use it when it parses). -/
def keyOf (jd : JSDate) (e : WorldEvent) : Int :=
  (jd.parse e.publishedAt).getD 0

/-- The value of a base64url character, by lookup in the alphabet. -/
def b64Val (c : Char) : Option Nat :=
  b64Alphabet.findIdx? (fun x => x == c)

/-- Decoder for unpadded base64url, the left inverse of `base64urlEncode`. -/
def base64urlDecode : List Char → Option (List Nat)
  | [] => some []
  | [_] => none
  | [c0, c1] =>
    match b64Val c0, b64Val c1 with
    | some v0, some v1 => some [v0 * 4 + v1 / 16]
    | _, _ => none
  | [c0, c1, c2] =>
    match b64Val c0, b64Val c1, b64Val c2 with
    | some v0, some v1, some v2 =>
      some [v0 * 4 + v1 / 16, v1 % 16 * 16 + v2 / 4]
    | _, _, _ => none
  | c0 :: c1 :: c2 :: c3 :: rest =>
    match b64Val c0, b64Val c1, b64Val c2, b64Val c3, base64urlDecode rest with
    | some v0, some v1, some v2, some v3, some bs =>
      some ((v0 * 4 + v1 / 16) :: (v1 % 16 * 16 + v2 / 4) ::
        (v2 % 4 * 64 + v3) :: bs)
    | _, _, _, _, _ => none

/-- Decoder for UTF-8 byte sequences, the left inverse of code-point-wise
`utf8Enc`; the fuel argument (an upper bound on the number of code points)
makes the recursion structural. -/
def utf8DecF : Nat → List Nat → Option (List Nat)
  | _, [] => some []
  | 0, _ :: _ => none
  | fuel + 1, b :: rest =>
    if b < 128 then (utf8DecF fuel rest).map (fun cs => b :: cs)
    else if b < 224 then
      match rest with
      | b1 :: rest2 =>
        (utf8DecF fuel rest2).map
          (fun cs => ((b - 192) * 64 + (b1 - 128)) :: cs)
      | [] => none
    else if b < 240 then
      match rest with
      | b1 :: b2 :: rest2 =>
        (utf8DecF fuel rest2).map
          (fun cs => ((b - 224) * 4096 + (b1 - 128) * 64 + (b2 - 128)) :: cs)
      | _ => none
    else
      match rest with
      | b1 :: b2 :: b3 :: rest2 =>
        (utf8DecF fuel rest2).map
          (fun cs =>
            ((b - 240) * 262144 + (b1 - 128) * 4096 + (b2 - 128) * 64 +
              (b3 - 128)) :: cs)
      | _ => none

/-- Decoder for UTF-8 byte sequences (the byte count bounds the number of
code points, so it serves as fuel). -/
def utf8Dec (l : List Nat) : Option (List Nat) :=
  utf8DecF l.length l

/-! ## Concrete test fixtures -/

/-- A date semantics for tests: `d1` and `d2` parse, everything else does
not. -/
def jdW : JSDate :=
  { parse := fun s => if s = "d1" then some 100 else if s = "d2" then some 200 else none
    toISO := fun t => "t" ++ toString t }

def srcW1 : EventSource :=
  { id := "s1", name := "One", homepage := "h1", feed := "f1", regions := ["europe"] }

def srcW2 : EventSource :=
  { id := "s2", name := "Two", homepage := "h2", feed := "f2", regions := ["asia"] }

/-- A source sharing `srcW1`'s id but not its display metadata. -/
def srcW1b : EventSource :=
  { id := "s1", name := "OneB", homepage := "h1b", feed := "f1b", regions := ["europe"] }

/-- A feed item with the given link and ISO date and no optional extras. -/
def itemW (url d : String) : RawItem :=
  { link := some url, title := some "T", isoDate := some d, pubDate := none,
    contentSnippet := none, content := none, enclosureUrl := none,
    mediaContent := none }

def pW : Params := { query := none, region := none, limit := none }

/-- Both sources serve an item with the same url `http://u`. -/
def fetchW3 : EventSource → Except Unit (List RawItem) :=
  fun s =>
    if s.id = "s1" then Except.ok [itemW "http://u" "d1"]
    else Except.ok [itemW "http://u" "d2"]

/-- The event `srcW1` produces for `itemW "http://u" "d1"`. -/
def evW3 : WorldEvent :=
  { id := "s1:aHR0cDovL3U", title := "T", summary := "", url := "http://u",
    sourceName := "One", sourceId := "s1", sourceHomepage := "h1",
    publishedAt := "d1", regions := ["europe"], image := none }

/-- The two sources serve items with distinct urls and distinct dates. -/
def fetchW4 : EventSource → Except Unit (List RawItem) :=
  fun s =>
    if s.id = "s1" then Except.ok [itemW "http://a" "d1"]
    else Except.ok [itemW "http://b" "d2"]

/-- Fetching `srcW1` fails; `srcW2` serves one item. -/
def fetchC2fail : EventSource → Except Unit (List RawItem) :=
  fun s =>
    if s.id = "s1" then Except.error ()
    else Except.ok [itemW "http://b" "d2"]

/-- Like `fetchC2fail`, but `srcW1` succeeds with an empty feed. -/
def fetchC2empty : EventSource → Except Unit (List RawItem) :=
  fun s =>
    if s.id = "s1" then Except.ok []
    else Except.ok [itemW "http://b" "d2"]

def pW5 : Params := { query := none, region := none, limit := some "5" }

/-- Region parameter whose lowercasing matches `srcW2`'s tag. -/
def pW6 : Params := { query := none, region := some "ASIA", limit := none }

/-- Event produced by `srcW2` for `itemW "http://b" "d2"`. -/
def evW6 : WorldEvent :=
  { id := "s2:aHR0cDovL2I", title := "T", summary := "", url := "http://b",
    sourceName := "Two", sourceId := "s2", sourceHomepage := "h2",
    publishedAt := "d2", regions := ["asia"], image := none }

/-- A source whose region tag is stored with an uppercase letter. -/
def srcC6 : EventSource :=
  { id := "e1", name := "Euro", homepage := "he", feed := "fe",
    regions := ["Europe"] }

def pC6 : Params := { query := none, region := some "Europe", limit := none }

def pC10 : Params := { query := none, region := some "", limit := none }

def pC10b : Params := { query := none, region := some "mars", limit := none }

/-- Region filter selects only `srcW1`; the two fetch functions disagree
only on the unselected `srcW2`. -/
def pEurope : Params := { query := none, region := some "europe", limit := none }

def fetchW7a : EventSource → Except Unit (List RawItem) :=
  fun s =>
    if s.id = "s1" then Except.ok [itemW "http://a" "d1"]
    else Except.error ()

def fetchW7b : EventSource → Except Unit (List RawItem) :=
  fun s =>
    if s.id = "s1" then Except.ok [itemW "http://a" "d1"]
    else Except.ok [itemW "http://b" "d2"]

/-- A date semantics under which nothing parses. -/
def jdC1 : JSDate :=
  { parse := fun _ => none, toISO := fun t => "t" ++ toString t }

/-- ISO date absent, human date present but unparseable. -/
def itemBadC1 : RawItem :=
  { link := some "http://bad", title := some "Bad", isoDate := none,
    pubDate := some "not a date", contentSnippet := none, content := none,
    enclosureUrl := none, mediaContent := none }

/-- A perfectly well-formed sibling item in the same batch. -/
def itemGoodC1 : RawItem :=
  { link := some "http://good", title := some "Good", isoDate := some "d1",
    pubDate := none, contentSnippet := none, content := none,
    enclosureUrl := none, mediaContent := none }

def fetchC1 : EventSource → Except Unit (List RawItem) :=
  fun _ => Except.ok [itemGoodC1, itemBadC1]

/-- The event `normalizeEvent` yields for `itemGoodC1` under `srcW1`. -/
def evGoodC1 : WorldEvent :=
  { id := "s1:aHR0cDovL2dvb2Q", title := "Good", summary := "",
    url := "http://good", sourceName := "One", sourceId := "s1",
    sourceHomepage := "h1", publishedAt := "d1", regions := ["europe"],
    image := none }

def itemC8a : RawItem :=
  { link := some "http://u", title := some "Alpha", isoDate := some "ia",
    pubDate := none, contentSnippet := none, content := none,
    enclosureUrl := none, mediaContent := none }

def itemC8b : RawItem :=
  { link := some "http://u", title := some "Beta", isoDate := some "ib",
    pubDate := none, contentSnippet := none, content := none,
    enclosureUrl := none, mediaContent := none }

def itemC8c : RawItem :=
  { link := some "http://v", title := some "Gamma", isoDate := some "ic",
    pubDate := none, contentSnippet := none, content := none,
    enclosureUrl := none, mediaContent := none }

def evC8a : WorldEvent :=
  { id := "s1:aHR0cDovL3U", title := "Alpha", summary := "", url := "http://u",
    sourceName := "One", sourceId := "s1", sourceHomepage := "h1",
    publishedAt := "ia", regions := ["europe"], image := none }

def evC8b : WorldEvent :=
  { id := "s1:aHR0cDovL3U", title := "Beta", summary := "", url := "http://u",
    sourceName := "OneB", sourceId := "s1", sourceHomepage := "h1b",
    publishedAt := "ib", regions := ["europe"], image := none }

def evC8c : WorldEvent :=
  { id := "s1:aHR0cDovL3Y", title := "Gamma", summary := "", url := "http://v",
    sourceName := "One", sourceId := "s1", sourceHomepage := "h1",
    publishedAt := "ic", regions := ["europe"], image := none }

/-- The enclosure is absent; the first media entry exposing a `url` key
carries a non-HTTP url, a later entry carries an HTTP url. -/
def itemC9 : RawItem :=
  { link := some "http://l", title := some "T", isoDate := some "d1",
    pubDate := none, contentSnippet := none, content := none,
    enclosureUrl := none,
    mediaContent := some [{ hasUrlKey := true, url := some "ftp://x" },
                          { hasUrlKey := true, url := some "http://y" }] }

/-- The event `normalizeEvent` yields for `itemC9` under `srcW1`. -/
def evC9 : WorldEvent :=
  { id := "s1:aHR0cDovL2w", title := "T", summary := "", url := "http://l",
    sourceName := "One", sourceId := "s1", sourceHomepage := "h1",
    publishedAt := "d1", regions := ["europe"], image := none }

/-! ## Lemmas about the deduplication loop -/

theorem keepFirst_sublist (l : List WorldEvent) : List.Sublist (keepFirst l) l := by
  induction l using keepFirst.induct with
  | case1 => simp [keepFirst]
  | case2 e rest ih =>
    rw [keepFirst]
    exact (ih.trans (List.filter_sublist _)).cons₂ e

theorem keepFirst_pairwise (l : List WorldEvent) :
    (keepFirst l).Pairwise (fun a b => a.url ≠ b.url) := by
  induction l using keepFirst.induct with
  | case1 => simp [keepFirst]
  | case2 e rest ih =>
    rw [keepFirst]
    refine List.pairwise_cons.mpr ⟨?_, ih⟩
    intro b hb
    have hbf := (keepFirst_sublist _).subset hb
    have hb' := List.of_mem_filter hbf
    simp only [Bool.not_eq_true', beq_eq_false_iff_ne] at hb'
    exact Ne.symm hb'

theorem find?_filter_ne (u w : String) (h : w ≠ u) :
    ∀ l : List WorldEvent,
      (l.filter (fun y => !(y.url == u))).find? (fun y => y.url == w) =
        l.find? (fun y => y.url == w)
  | [] => rfl
  | y :: l => by
    by_cases hyu : y.url = u
    · have h1 : (!(y.url == u)) = false := by simp [hyu]
      have h2 : (y.url == w) = false := beq_eq_false_iff_ne.mpr (hyu ▸ Ne.symm h)
      simp [List.filter_cons, h1, List.find?_cons, h2, find?_filter_ne u w h l]
    · have h1 : (!(y.url == u)) = true := by simp [hyu]
      by_cases hyw : y.url = w
      · have h2 : (y.url == w) = true := by simp [hyw]
        simp [List.filter_cons, h1, List.find?_cons, h2]
      · simp [List.filter_cons, h1, List.find?_cons,
          beq_eq_false_iff_ne.mpr hyw, find?_filter_ne u w h l]

theorem keepFirst_find? (l : List WorldEvent) :
    ∀ x ∈ keepFirst l, l.find? (fun y => y.url == x.url) = some x := by
  induction l using keepFirst.induct with
  | case1 => simp [keepFirst]
  | case2 e rest ih =>
    rw [keepFirst]
    intro x hx
    rcases List.mem_cons.mp hx with rfl | hx'
    · simp [List.find?_cons]
    · have hxf : x ∈ rest.filter (fun y => !(y.url == e.url)) :=
        (keepFirst_sublist _).subset hx'
      have hne : x.url ≠ e.url := by
        have hb' := List.of_mem_filter hxf
        simpa only [Bool.not_eq_true', beq_eq_false_iff_ne] using hb'
      have ihx := ih x hx'
      rw [find?_filter_ne e.url x.url hne] at ihx
      have h2 : (e.url == x.url) = false := beq_eq_false_iff_ne.mpr (Ne.symm hne)
      simp [List.find?_cons, h2, ihx]

theorem uniqueLoop_map_snd :
    ∀ (l : List WorldEvent) (m : List (String × WorldEvent)),
      (uniqueLoop m l).map Prod.snd =
        m.map Prod.snd ++
          keepFirst (l.filter (fun e => !(m.any (fun kv => kv.1 == e.url))))
  | [], m => by simp [uniqueLoop, keepFirst]
  | e :: rest, m => by
    rw [uniqueLoop]
    by_cases hm : m.any (fun kv => kv.1 == e.url)
    · rw [if_pos hm, uniqueLoop_map_snd rest m, List.filter_cons]
      simp [hm]
    · rw [if_neg hm, uniqueLoop_map_snd rest (m ++ [(e.url, e)]),
        List.filter_cons]
      have hpe : (!(m.any (fun kv => kv.1 == e.url))) = true := by simp [hm]
      rw [if_pos hpe, keepFirst]
      simp only [List.map_append, List.map_cons, List.map_nil,
        List.append_assoc, List.singleton_append, List.cons_append,
        List.nil_append]
      congr 2
      rw [List.filter_filter]
      refine congrArg keepFirst (List.filter_congr ?_)
      intro x _
      simp only [List.any_append, List.any_cons, List.any_nil, Bool.or_false,
        Bool.not_or]
      rw [show (e.url == x.url) = (x.url == e.url) from Bool.beq_comm]
      exact Bool.and_comm _ _

theorem dedupByUrl_eq_keepFirst (l : List WorldEvent) :
    dedupByUrl l = keepFirst l := by
  rw [dedupByUrl, uniqueLoop_map_snd]
  simp

/-! ## Shape of normalized events and membership chains -/

theorem normalizeEvent_ok_some {jd : JSDate} {source : EventSource}
    {item : RawItem} {ev : WorldEvent}
    (h : normalizeEvent jd source item = Except.ok (some ev)) :
    ev.url = item.link.getD "" ∧
    ev.id = makeId source.id (item.link.getD "") ∧
    ev.regions = source.regions ∧
    ev.sourceId = source.id ∧
    ev.sourceName = source.name ∧
    ev.sourceHomepage = source.homepage ∧
    ev.image = resolveImage item ∧
    ev.title = (item.title.map jsTrim).getD "" := by
  unfold normalizeEvent at h
  split at h
  · exact absurd h (by simp)
  · split at h
    · exact absurd h (by simp)
    · simp only [Except.ok.injEq, Option.some.injEq] at h
      subst h
      exact ⟨rfl, rfl, rfl, rfl, rfl, rfl, rfl, rfl⟩

theorem normalizeBatch_ok_mem {jd : JSDate} {source : EventSource} :
    ∀ {items : List RawItem} {opts : List (Option WorldEvent)},
      normalizeBatch jd source items = Except.ok opts →
      ∀ o ∈ opts, ∃ item ∈ items, normalizeEvent jd source item = Except.ok o
  | [], opts => by
    intro h o ho
    simp only [normalizeBatch, Except.ok.injEq] at h
    subst h
    simp at ho
  | item :: rest, opts => by
    intro h o ho
    rw [normalizeBatch] at h
    cases he : normalizeEvent jd source item with
    | error err => rw [he] at h; exact absurd h (by simp)
    | ok e0 =>
      rw [he] at h
      cases hb : normalizeBatch jd source rest with
      | error err => rw [hb] at h; exact absurd h (by simp)
      | ok es =>
        rw [hb] at h
        simp only [Except.ok.injEq] at h
        subst h
        rcases List.mem_cons.mp ho with rfl | ho'
        · exact ⟨item, List.mem_cons_self _ _, he⟩
        · obtain ⟨it, hit, hn⟩ := normalizeBatch_ok_mem hb o ho'
          exact ⟨it, List.mem_cons_of_mem _ hit, hn⟩

theorem mem_processSource {jd : JSDate}
    {fetch : EventSource → Except Unit (List RawItem)} {s : EventSource}
    {e : WorldEvent} (h : e ∈ processSource jd fetch s) :
    ∃ item, normalizeEvent jd s item = Except.ok (some e) := by
  unfold processSource at h
  split at h
  · simp at h
  · split at h
    · simp at h
    · rename_i items _ opts hb
      obtain ⟨o, ho, hoe⟩ := List.mem_filterMap.mp h
      obtain ⟨item, _, hn⟩ := normalizeBatch_ok_mem hb o ho
      cases o with
      | none => simp at hoe
      | some e' =>
        simp only [id_eq, Option.some.injEq] at hoe
        subst hoe
        exact ⟨item, hn⟩

theorem mem_flattenedEvents {registry : List EventSource} {jd : JSDate}
    {fetch : EventSource → Except Unit (List RawItem)} {p : Params}
    {e : WorldEvent} (h : e ∈ flattenedEvents registry jd fetch p) :
    ∃ s ∈ selectedSources registry p, e ∈ processSource jd fetch s := by
  unfold flattenedEvents at h
  obtain ⟨xs, hxs, hexs⟩ := List.mem_flatten.mp h
  obtain ⟨s, hs, rfl⟩ := List.mem_map.mp hxs
  exact ⟨s, hs, hexs⟩

theorem mem_deduped_of_mem_events {registry : List EventSource} {jd : JSDate}
    {fetch : EventSource → Except Unit (List RawItem)} {p : Params}
    {e : WorldEvent} (h : e ∈ (GET registry jd fetch p).events) :
    e ∈ dedupedEvents registry jd fetch p := by
  have h1 : e ∈ sortedEvents registry jd fetch p := List.mem_of_mem_take h
  have h2 : e ∈ queryFilteredEvents registry jd fetch p :=
    List.mem_mergeSort.mp h1
  unfold queryFilteredEvents at h2
  split at h2
  · split at h2
    · exact h2
    · exact List.mem_of_mem_filter h2
  · exact h2

theorem mem_flattened_of_mem_events {registry : List EventSource} {jd : JSDate}
    {fetch : EventSource → Except Unit (List RawItem)} {p : Params}
    {e : WorldEvent} (h : e ∈ (GET registry jd fetch p).events) :
    e ∈ flattenedEvents registry jd fetch p := by
  have h3 := mem_deduped_of_mem_events h
  unfold dedupedEvents at h3
  rw [dedupByUrl_eq_keepFirst] at h3
  exact (keepFirst_sublist _).subset h3

/-! ## C3: url uniqueness and first-seen-wins deduplication -/

/-- C3: in every aggregation result the `url` field is unique across the
returned events, and every returned event is exactly the first event of the
flattened sequence (registry order, then feed order) carrying its `url`, so
all later events sharing that `url` are discarded. -/
theorem c3_url_unique_first_seen (registry : List EventSource) (jd : JSDate)
    (fetch : EventSource → Except Unit (List RawItem)) (p : Params) :
    (GET registry jd fetch p).events.Pairwise (fun a b => a.url ≠ b.url) ∧
    ∀ e ∈ (GET registry jd fetch p).events,
      (flattenedEvents registry jd fetch p).find? (fun y => y.url == e.url) =
        some e := by
  constructor
  · have hded : (dedupedEvents registry jd fetch p).Pairwise
        (fun a b => a.url ≠ b.url) := by
      unfold dedupedEvents
      rw [dedupByUrl_eq_keepFirst]
      exact keepFirst_pairwise _
    have hfil : (queryFilteredEvents registry jd fetch p).Pairwise
        (fun a b => a.url ≠ b.url) := by
      unfold queryFilteredEvents
      split
      · split
        · exact hded
        · exact hded.filter _
      · exact hded
    have hsor : (sortedEvents registry jd fetch p).Pairwise
        (fun a b => a.url ≠ b.url) := by
      unfold sortedEvents
      exact ((List.mergeSort_perm _ _).pairwise_iff
        (fun h => Ne.symm h)).mpr hfil
    exact List.Pairwise.sublist (List.take_sublist _ _) hsor
  · intro e he
    have h3 := mem_deduped_of_mem_events he
    unfold dedupedEvents at h3
    rw [dedupByUrl_eq_keepFirst] at h3
    exact keepFirst_find? _ e h3

/-- The concrete aggregation for the C3 witness evaluates to the single
event of the earlier-registered source. -/
theorem c3_witness_events :
    (GET [srcW1, srcW2] jdW fetchW3 pW).events = [evW3] := by
  show ((queryFilteredEvents [srcW1, srcW2] jdW fetchW3 pW).mergeSort _).take _
      = _
  rw [show queryFilteredEvents [srcW1, srcW2] jdW fetchW3 pW = [evW3]
    from by decide]
  simp
  decide

/-- Witness for C3: two sources both serve an item with url `http://u`; the
returned event is the one of the earlier-registered source, and it is the
first match in the flattened sequence. -/
theorem c3_witness :
    evW3 ∈ (GET [srcW1, srcW2] jdW fetchW3 pW).events ∧
    (flattenedEvents [srcW1, srcW2] jdW fetchW3 pW).find?
      (fun y => y.url == evW3.url) = some evW3 :=
  ⟨by rw [c3_witness_events]; exact List.mem_cons_self _ _,
   (c3_url_unique_first_seen [srcW1, srcW2] jdW fetchW3 pW).2 evW3
     (by rw [c3_witness_events]; exact List.mem_cons_self _ _)⟩

/-! ## Region resolution helpers -/

theorem resolvedRegion_none {p : Params} (h : p.region = none) :
    resolvedRegion p = "global" := by
  unfold resolvedRegion resolvedRegionParam
  rw [h]
  rfl

theorem resolvedRegion_sentinel {p : Params} {r : String}
    (h : p.region = some r) (hs : jsToLower r = "" ∨ jsToLower r = "global") :
    resolvedRegion p = "global" := by
  unfold resolvedRegion resolvedRegionParam
  rw [h]
  simp only [Option.map_some']
  rcases hs with hs | hs
  · rw [hs]
    rfl
  · rw [hs]
    rfl

theorem resolvedRegion_of_some {p : Params} {r : String}
    (h : p.region = some r) (hne : jsToLower r ≠ "")
    (hng : jsToLower r ≠ "global") : resolvedRegion p = jsToLower r := by
  unfold resolvedRegion resolvedRegionParam
  rw [h]
  simp only [Option.map_some']
  rw [if_pos]
  rw [Bool.and_eq_true]
  constructor
  · simp only [Bool.not_eq_true', ← Bool.not_eq_true]
    intro hcon
    exact hne ((String.isEmpty_iff _).mp hcon)
  · exact bne_iff_ne.mpr hng

/-! ## C5: limit defaulting and clamping -/

/-- C5: the effective limit is 60 when the `limit` parameter is absent or
does not parse as a number, it is clamped up to 10 when the parsed value is
below 10, and the returned events list never contains more events than the
effective limit. -/
theorem c5_limit_clamp (registry : List EventSource) (jd : JSDate)
    (fetch : EventSource → Except Unit (List RawItem)) (p : Params) :
    (parseIntJS (p.limit.getD "") = none → resolvedLimit p = 60) ∧
    (∀ v : Int, parseIntJS (p.limit.getD "") = some v → v < 10 →
      resolvedLimit p = 10) ∧
    ((GET registry jd fetch p).events.length : Int) ≤ resolvedLimit p := by
  refine ⟨?_, ?_, ?_⟩
  · intro h
    unfold resolvedLimit
    rw [h]
  · intro v h hv
    unfold resolvedLimit
    rw [h]
    exact max_eq_right hv.le
  · have hnn : 0 ≤ resolvedLimit p := by
      unfold resolvedLimit
      split
      · exact le_trans (by omega) (le_max_right _ _)
      · omega
    have hlen : (GET registry jd fetch p).events.length ≤
        (resolvedLimit p).toNat := by
      show ((sortedEvents registry jd fetch p).take _).length ≤ _
      simp [List.length_take]
    calc ((GET registry jd fetch p).events.length : Int)
        ≤ ((resolvedLimit p).toNat : Int) := by exact_mod_cast hlen
      _ = resolvedLimit p := Int.toNat_of_nonneg hnn

/-- Witness for C5: a supplied `limit = "5"` is clamped up to 10 and bounds
the result length. -/
theorem c5_witness :
    resolvedLimit pW5 = 10 ∧
    ((GET [srcW1] jdW fetchW4 pW5).events.length : Int) ≤ resolvedLimit pW5 :=
  ⟨(c5_limit_clamp [srcW1] jdW fetchW4 pW5).2.1 5 (by decide) (by decide),
   (c5_limit_clamp [srcW1] jdW fetchW4 pW5).2.2⟩

/-! ## C6: region-based source selection -/

/-- C6 counterexample: the region parameter `Europe` matches the source's
region tag `Europe` case-insensitively, yet the source is not selected — the
code lowercases only the parameter and then compares it exactly against the
stored tags. -/
theorem c6_counterexample :
    jsToLower "Europe" = "europe" ∧ "Europe" ∈ srcC6.regions ∧
    selectedSources [srcC6] pC6 = [] := by decide

/-- C6 (amended): when the `region` parameter is absent, or lowercases to
the empty string or to `global`, all registry sources are selected;
otherwise exactly the sources whose region list contains the lowercased
parameter — compared exactly, hence case-sensitively, against the stored
tags — are selected, and every returned event's region list contains the
lowercased parameter. -/
theorem c6_region_selection (registry : List EventSource) (jd : JSDate)
    (fetch : EventSource → Except Unit (List RawItem)) (p : Params) :
    (p.region = none → selectedSources registry p = registry) ∧
    (∀ r, p.region = some r → (jsToLower r = "" ∨ jsToLower r = "global") →
      selectedSources registry p = registry) ∧
    (∀ r, p.region = some r → jsToLower r ≠ "" → jsToLower r ≠ "global" →
      selectedSources registry p =
        registry.filter (fun s => s.regions.contains (jsToLower r)) ∧
      ∀ e ∈ (GET registry jd fetch p).events, jsToLower r ∈ e.regions) := by
  refine ⟨?_, ?_, ?_⟩
  · intro h
    unfold selectedSources
    rw [resolvedRegion_none h]
    simp
  · intro r hr hs
    unfold selectedSources
    rw [resolvedRegion_sentinel hr hs]
    simp
  · intro r hr hne hng
    have hres := resolvedRegion_of_some hr hne hng
    have hsel : selectedSources registry p =
        registry.filter (fun s => s.regions.contains (jsToLower r)) := by
      unfold selectedSources
      rw [hres, if_neg hng]
    refine ⟨hsel, ?_⟩
    intro e he
    obtain ⟨s, hsmem, hproc⟩ := mem_flattenedEvents (mem_flattened_of_mem_events he)
    obtain ⟨item, hn⟩ := mem_processSource hproc
    have hreg := (normalizeEvent_ok_some hn).2.2.1
    rw [hsel] at hsmem
    have hcont := (List.mem_filter.mp hsmem).2
    have hmem : jsToLower r ∈ s.regions := List.mem_of_elem_eq_true hcont
    rw [hreg]
    exact hmem

/-- The concrete aggregation for the C6 witness evaluates to `srcW2`'s
single event. -/
theorem c6_witness_events :
    (GET [srcW2] jdW fetchW4 pW6).events = [evW6] := by
  show ((queryFilteredEvents [srcW2] jdW fetchW4 pW6).mergeSort _).take _ = _
  rw [show queryFilteredEvents [srcW2] jdW fetchW4 pW6 = [evW6] from by decide]
  simp
  decide

/-- Witness for C6 (amended): the parameter `ASIA` lowercases to `asia`,
selects exactly the matching source, and the returned event's regions
contain `asia`. -/
theorem c6_witness :
    selectedSources [srcW2] pW6 =
      [srcW2].filter (fun s => s.regions.contains (jsToLower "ASIA")) ∧
    jsToLower "ASIA" ∈ evW6.regions :=
  ⟨((c6_region_selection [srcW2] jdW fetchW4 pW6).2.2 "ASIA" rfl (by decide)
      (by decide)).1,
   ((c6_region_selection [srcW2] jdW fetchW4 pW6).2.2 "ASIA" rfl (by decide)
      (by decide)).2 evW6
     (by rw [c6_witness_events]; exact List.mem_cons_self _ _)⟩

/-! ## C10: unknown region values -/

/-- C10 counterexample: the empty-string region value lowercases to a value
that is neither `global` nor contained in any source's region set, yet —
being falsy — it is treated as the `global` sentinel, so all sources are
selected and reported instead of none. -/
theorem c10_counterexample :
    jsToLower "" ≠ "global" ∧ ("" ∈ srcC6.regions → False) ∧
    (GET [srcC6] jdW (fun _ => Except.error ()) pC10).sources =
      [{ id := "e1", name := "Euro", homepage := "he" }] := by
  exact ⟨by decide, by decide, by decide⟩

/-- C10 (amended): for every non-empty region value whose lowercasing is
neither `global` nor contained in any registry source's region set, the
aggregation returns an empty events list and an empty sources list. -/
theorem c10_unknown_region_empty (registry : List EventSource) (jd : JSDate)
    (fetch : EventSource → Except Unit (List RawItem)) (p : Params)
    (r : String) (hr : p.region = some r) (hne : jsToLower r ≠ "")
    (hng : jsToLower r ≠ "global")
    (hnm : ∀ s ∈ registry, jsToLower r ∉ s.regions) :
    (GET registry jd fetch p).events = [] ∧
    (GET registry jd fetch p).sources = [] := by
  have hsel : selectedSources registry p = [] := by
    unfold selectedSources
    rw [resolvedRegion_of_some hr hne hng, if_neg hng]
    rw [List.filter_eq_nil_iff]
    intro s hs hc
    exact hnm s hs (List.mem_of_elem_eq_true hc)
  constructor
  · show ((sortedEvents registry jd fetch p).take _) = _
    have hq : queryFilteredEvents registry jd fetch p = [] := by
      have hd : dedupedEvents registry jd fetch p = [] := by
        unfold dedupedEvents flattenedEvents
        rw [hsel]
        rfl
      unfold queryFilteredEvents
      rw [hd]
      split
      · split
        · rfl
        · rfl
      · rfl
    unfold sortedEvents
    rw [hq]
    simp
  · show (selectedSources registry p).map _ = _
    rw [hsel]
    rfl

/-- Witness for C10 (amended): the region value `mars` is unknown to the
registry, so both outputs are empty. -/
theorem c10_witness :
    (GET [srcW1] jdW fetchW4 pC10b).events = [] ∧
    (GET [srcW1] jdW fetchW4 pC10b).sources = [] :=
  c10_unknown_region_empty [srcW1] jdW fetchW4 pC10b "mars" rfl (by decide)
    (by decide) (by decide)

/-! ## C2: per-source failure isolation -/

/-- C2: a selected source whose fetch or parse fails contributes an empty
event list and behaves exactly like a source succeeding with an empty feed:
the whole response — including the events of every other source — is
identical to that run, and the failing source still appears in the
`sources` output. -/
theorem c2_failure_isolated (registry : List EventSource) (jd : JSDate)
    (p : Params) (fetch fetch2 : EventSource → Except Unit (List RawItem))
    (s : EventSource) (hfail : fetch s = Except.error ())
    (hempty : fetch2 s = Except.ok [])
    (hagree : ∀ t ∈ selectedSources registry p, t ≠ s → fetch t = fetch2 t) :
    processSource jd fetch s = [] ∧
    GET registry jd fetch p = GET registry jd fetch2 p ∧
    (s ∈ selectedSources registry p →
      ({ id := s.id, name := s.name, homepage := s.homepage } : SourceMeta) ∈
        (GET registry jd fetch p).sources) := by
  have hps : ∀ t ∈ selectedSources registry p,
      processSource jd fetch t = processSource jd fetch2 t := by
    intro t ht
    by_cases hts : t = s
    · subst hts
      unfold processSource
      rw [hfail, hempty]
      rfl
    · unfold processSource
      rw [hagree t ht hts]
  refine ⟨?_, ?_, ?_⟩
  · unfold processSource
    rw [hfail]
  · unfold GET sortedEvents queryFilteredEvents dedupedEvents flattenedEvents
    rw [List.map_congr_left hps]
  · intro hmem
    exact List.mem_map_of_mem _ hmem

/-- Witness for C2: `srcW1`'s fetch fails while `srcW2` serves an item; the
response equals the empty-feed run and still lists `srcW1`. -/
theorem c2_witness :
    processSource jdW fetchC2fail srcW1 = [] ∧
    GET [srcW1, srcW2] jdW fetchC2fail pW =
      GET [srcW1, srcW2] jdW fetchC2empty pW ∧
    ({ id := "s1", name := "One", homepage := "h1" } : SourceMeta) ∈
      (GET [srcW1, srcW2] jdW fetchC2fail pW).sources := by
  have h := c2_failure_isolated [srcW1, srcW2] jdW pW fetchC2fail fetchC2empty
    srcW1 (by decide) (by decide) (by decide)
  exact ⟨h.1, h.2.1, h.2.2 (by decide)⟩

/-! ## C7: determinism -/

/-- C7: the aggregation is a deterministic pure function of the registry,
the fetched feed contents and the query parameters: two runs whose fetch
results agree on every selected source produce identical responses (same
events in the same order, same sources). -/
theorem c7_determinism (registry : List EventSource) (jd : JSDate)
    (p : Params) (fetch1 fetch2 : EventSource → Except Unit (List RawItem))
    (h : ∀ s ∈ selectedSources registry p, fetch1 s = fetch2 s) :
    GET registry jd fetch1 p = GET registry jd fetch2 p := by
  have hps : ∀ s ∈ selectedSources registry p,
      processSource jd fetch1 s = processSource jd fetch2 s := by
    intro s hs
    unfold processSource
    rw [h s hs]
  unfold GET sortedEvents queryFilteredEvents dedupedEvents flattenedEvents
  rw [List.map_congr_left hps]

/-- Witness for C7: the two fetch functions differ only on the source that
the region filter deselects, so the responses coincide. -/
theorem c7_witness :
    GET [srcW1, srcW2] jdW fetchW7a pEurope =
      GET [srcW1, srcW2] jdW fetchW7b pEurope :=
  c7_determinism [srcW1, srcW2] jdW pEurope fetchW7a fetchW7b (by decide)

/-! ## C1: unparseable publish dates throw and abort the whole batch -/

/-- C1 (code-bug evidence): for an item whose ISO date field is absent and
whose human-formatted date does not parse, `normalizeEvent` does not reject
the item with `null`: `new Date(pubDate).toISOString()` throws a
`RangeError`, and the exception escapes `normalizeEvent` and the per-source
`map`, so the whole batch — including the well-formed sibling item — is
discarded and the source contributes no events at all. -/
theorem c1_pubDate_throw_aborts_batch :
    normalizeEvent jdC1 srcW1 itemBadC1 = Except.error () ∧
    normalizeEvent jdC1 srcW1 itemGoodC1 = Except.ok (some evGoodC1) ∧
    processSource jdC1 fetchC1 srcW1 = [] := by decide

/-! ## C9: image resolution preference -/

/-- C9 counterexample: the enclosure is absent, the first media-content
entry exposing a `url` key carries a non-HTTP url, and a later entry carries
an HTTP url; the claim expects the later matching URL to be used as the
image, but the normalized event's image is unset. -/
theorem c9_counterexample :
    itemC9.enclosureUrl = none ∧
    itemC9.mediaContent = some [{ hasUrlKey := true, url := some "ftp://x" },
                                { hasUrlKey := true, url := some "http://y" }] ∧
    isHttpUrl "ftp://x" = false ∧ isHttpUrl "http://y" = true ∧
    normalizeEvent jdW srcW1 itemC9 = Except.ok (some evC9) ∧
    evC9.image = none := by decide

theorem urlIfHttp_some {u v : String} (h : urlIfHttp u = some v) :
    v = u ∧ isHttpUrl u = true := by
  unfold urlIfHttp at h
  split at h
  · rename_i hc
    cases h
    rw [Bool.and_eq_true] at hc
    exact ⟨rfl, hc.2⟩
  · exact absurd h (by simp)

theorem mediaImage_isHttp {item : RawItem} {u : String}
    (h : mediaImage item = some u) : isHttpUrl u = true := by
  unfold mediaImage at h
  split at h
  · split at h
    · split at h
      · obtain ⟨huw, hh⟩ := urlIfHttp_some h
        rw [huw]
        exact hh
      · exact absurd h (by simp)
    · exact absurd h (by simp)
  · exact absurd h (by simp)

theorem resolveImage_isHttp {item : RawItem} {u : String}
    (h : resolveImage item = some u) : isHttpUrl u = true := by
  unfold resolveImage at h
  split at h
  · split at h
    · rename_i hq
      cases h
      obtain ⟨rfl, hh⟩ := urlIfHttp_some hq
      exact hh
    · exact mediaImage_isHttp h
  · exact mediaImage_isHttp h

/-- C9 (amended): when the enclosure URL is present, truthy and matching the
HTTP(S) pattern, it becomes the image; otherwise only the first
media-content entry exposing a `url` key is examined — its URL is used when
truthy and matching the pattern, and the image is left unset otherwise, even
if a later entry would match; whenever the image is set it is syntactically
an HTTP or HTTPS URL. -/
theorem c9_image_preference (jd : JSDate) (source : EventSource)
    (item : RawItem) (ev : WorldEvent)
    (h : normalizeEvent jd source item = Except.ok (some ev)) :
    (∀ u, item.enclosureUrl = some u → (!u.isEmpty && isHttpUrl u) = true →
      ev.image = some u) ∧
    ((∀ u, item.enclosureUrl = some u → (!u.isEmpty && isHttpUrl u) = false) →
      (∀ entries m, item.mediaContent = some entries →
        entries.find? (fun x => x.hasUrlKey) = some m →
        ev.image = (match m.url with
          | some v => urlIfHttp v
          | none => none)) ∧
      (item.mediaContent = none → ev.image = none) ∧
      (∀ entries, item.mediaContent = some entries →
        entries.find? (fun x => x.hasUrlKey) = none → ev.image = none)) ∧
    (∀ u, ev.image = some u → isHttpUrl u = true) := by
  have himg : ev.image = resolveImage item :=
    (normalizeEvent_ok_some h).2.2.2.2.2.2.1
  have hmedia : (∀ u, item.enclosureUrl = some u →
      (!u.isEmpty && isHttpUrl u) = false) →
      resolveImage item = mediaImage item := by
    intro henc
    cases hcu : item.enclosureUrl with
    | none => simp only [resolveImage, hcu]
    | some u2 =>
      have hq : urlIfHttp u2 = none := by
        unfold urlIfHttp
        rw [henc u2 hcu]
        simp
      simp only [resolveImage, hcu, hq]
  refine ⟨?_, ?_, ?_⟩
  · intro u hu hmatch
    rw [himg]
    have hq : urlIfHttp u = some u := by
      unfold urlIfHttp
      rw [hmatch]
      simp
    simp only [resolveImage, hu, hq]
  · intro henc
    have hm := hmedia henc
    refine ⟨?_, ?_, ?_⟩
    · intro entries m hment hfind
      rw [himg, hm]
      simp only [mediaImage, hment, hfind]
    · intro hment
      rw [himg, hm]
      simp only [mediaImage, hment]
    · intro entries hment hfind
      rw [himg, hm]
      simp only [mediaImage, hment, hfind]
  · intro u hu
    rw [himg] at hu
    exact resolveImage_isHttp hu

/-- Witness for C9 (amended): on `itemC9` the enclosure is absent and the
first media entry with a `url` key carries `ftp://x`, so the image is its
(rejected) guard result. -/
theorem c9_witness : evC9.image = urlIfHttp "ftp://x" :=
  ((c9_image_preference jdW srcW1 itemC9 evC9 (by decide)).2.1
      (fun u hu => by simp [itemC9] at hu)).1
    [{ hasUrlKey := true, url := some "ftp://x" },
     { hasUrlKey := true, url := some "http://y" }]
    { hasUrlKey := true, url := some "ftp://x" } rfl (by decide)

/-! ## C4: descending stable sort by publish instant -/

theorem sortCmp_agree {jd : JSDate} {l : List WorldEvent}
    (h : ∀ e ∈ l, (jd.parse e.publishedAt).isSome = true) :
    ∀ a ∈ l, ∀ b ∈ l,
      decide (sortCmp jd a b ≤ 0) = decide (keyOf jd b ≤ keyOf jd a) := by
  intro a ha b hb
  obtain ⟨ta, hta⟩ := Option.isSome_iff_exists.mp (h a ha)
  obtain ⟨tb, htb⟩ := Option.isSome_iff_exists.mp (h b hb)
  simp only [sortCmp, keyOf, hta, htb, Option.getD_some]
  exact decide_eq_decide.mpr (by omega)

theorem keyLe_trans (jd : JSDate) : ∀ (a b c : WorldEvent),
    decide (keyOf jd b ≤ keyOf jd a) → decide (keyOf jd c ≤ keyOf jd b) →
    decide (keyOf jd c ≤ keyOf jd a) := by
  intro a b c h1 h2
  simp only [decide_eq_true_eq] at *
  omega

theorem keyLe_total (jd : JSDate) : ∀ (a b : WorldEvent),
    (decide (keyOf jd b ≤ keyOf jd a) || decide (keyOf jd a ≤ keyOf jd b)) := by
  intro a b
  simp only [Bool.or_eq_true, decide_eq_true_eq]
  omega

/-- C4: when every event surviving the query filter has a parseable
timestamp, the returned list is ordered by parsed publish instant descending
(for `A` before `B`, `A.publishedAt >= B.publishedAt` as instants), and
events with equal instants keep their pre-sort relative order: for every
instant `t`, the returned events with timestamp `t` form a sublist — in
order — of the pre-sort events with timestamp `t`. -/
theorem c4_sorted_desc_stable (registry : List EventSource) (jd : JSDate)
    (fetch : EventSource → Except Unit (List RawItem)) (p : Params)
    (h : ∀ e ∈ queryFilteredEvents registry jd fetch p,
      (jd.parse e.publishedAt).isSome = true) :
    (GET registry jd fetch p).events.Pairwise
      (fun a b => keyOf jd b ≤ keyOf jd a) ∧
    ∀ t : Int,
      List.Sublist
        ((GET registry jd fetch p).events.filter
          (fun e => jd.parse e.publishedAt == some t))
        ((queryFilteredEvents registry jd fetch p).filter
          (fun e => jd.parse e.publishedAt == some t)) := by
  have hswap : sortedEvents registry jd fetch p =
      (queryFilteredEvents registry jd fetch p).mergeSort
        (fun a b => decide (keyOf jd b ≤ keyOf jd a)) := by
    unfold sortedEvents
    have hmap := List.map_mergeSort (f := id)
      (l := queryFilteredEvents registry jd fetch p)
      (r := fun a b => decide (sortCmp jd a b ≤ 0))
      (s := fun a b => decide (keyOf jd b ≤ keyOf jd a))
      (fun a ha b hb => sortCmp_agree h a ha b hb)
    simpa using hmap
  constructor
  · have hsorted := List.sorted_mergeSort
      (keyLe_trans jd) (keyLe_total jd)
      (queryFilteredEvents registry jd fetch p)
    have hpw : ((queryFilteredEvents registry jd fetch p).mergeSort
        (fun a b => decide (keyOf jd b ≤ keyOf jd a))).Pairwise
        (fun a b => keyOf jd b ≤ keyOf jd a) :=
      hsorted.imp (fun hab => of_decide_eq_true hab)
    show (List.take _ (sortedEvents registry jd fetch p)).Pairwise _
    rw [hswap]
    exact List.Pairwise.sublist (List.take_sublist _ _) hpw
  · intro t
    have hcp : ((queryFilteredEvents registry jd fetch p).filter
        (fun e => jd.parse e.publishedAt == some t)).Pairwise
        (fun a b => decide (keyOf jd b ≤ keyOf jd a)) := by
      apply List.pairwise_of_forall_mem_list
      intro a ha b hb
      have hpa := List.of_mem_filter ha
      have hpb := List.of_mem_filter hb
      simp only [beq_iff_eq] at hpa hpb
      simp [keyOf, hpa, hpb]
    have hsub := List.sublist_mergeSort
      (keyLe_trans jd) (keyLe_total jd) hcp
      (List.filter_sublist (l := queryFilteredEvents registry jd fetch p)
        (p := fun e => jd.parse e.publishedAt == some t))
    have hfeq : ((queryFilteredEvents registry jd fetch p).mergeSort
        (fun a b => decide (keyOf jd b ≤ keyOf jd a))).filter
          (fun e => jd.parse e.publishedAt == some t) =
        (queryFilteredEvents registry jd fetch p).filter
          (fun e => jd.parse e.publishedAt == some t) := by
      have h1 := hsub.filter (fun e => jd.parse e.publishedAt == some t)
      have hself : ((queryFilteredEvents registry jd fetch p).filter
          (fun e => jd.parse e.publishedAt == some t)).filter
          (fun e => jd.parse e.publishedAt == some t) =
          (queryFilteredEvents registry jd fetch p).filter
            (fun e => jd.parse e.publishedAt == some t) := by
        apply List.filter_eq_self.mpr
        intro a ha
        have hq := List.of_mem_filter ha
        exact hq
      rw [hself] at h1
      have hperm := (List.mergeSort_perm
        (queryFilteredEvents registry jd fetch p)
        (fun a b => decide (keyOf jd b ≤ keyOf jd a))).filter
          (fun e => jd.parse e.publishedAt == some t)
      exact (h1.eq_of_length hperm.length_eq.symm).symm
    show List.Sublist ((List.take _ (sortedEvents registry jd fetch p)).filter _) _
    rw [hswap, ← hfeq]
    exact (List.take_sublist _ _).filter _

/-- Witness for C4: a two-source run with distinct parseable dates. -/
theorem c4_witness :
    (GET [srcW1, srcW2] jdW fetchW4 pW).events.Pairwise
      (fun a b => keyOf jdW b ≤ keyOf jdW a) ∧
    List.Sublist
      ((GET [srcW1, srcW2] jdW fetchW4 pW).events.filter
        (fun e => jdW.parse e.publishedAt == some 100))
      ((queryFilteredEvents [srcW1, srcW2] jdW fetchW4 pW).filter
        (fun e => jdW.parse e.publishedAt == some 100)) :=
  ⟨(c4_sorted_desc_stable [srcW1, srcW2] jdW fetchW4 pW (by decide)).1,
   (c4_sorted_desc_stable [srcW1, srcW2] jdW fetchW4 pW (by decide)).2 100⟩

/-! ## C8: the event id is a pure, injective function of (sourceId, url) -/

theorem b64Val_b64Char : ∀ n, n < 64 → b64Val (b64Char n) = some n := by decide

theorem base64urlDecode_encode :
    ∀ bs : List Nat, (∀ b ∈ bs, b < 256) →
      base64urlDecode (base64urlEncode bs) = some bs := by
  intro bs
  induction bs using base64urlEncode.induct with
  | case1 => intro _; rfl
  | case2 b0 =>
    intro h
    have hb0 : b0 < 256 := h b0 (by simp)
    have h0 : b64Val (b64Char (b0 / 4)) = some (b0 / 4) :=
      b64Val_b64Char _ (by omega)
    have h1 : b64Val (b64Char (b0 % 4 * 16)) = some (b0 % 4 * 16) :=
      b64Val_b64Char _ (by omega)
    simp only [base64urlEncode, base64urlDecode, h0, h1, Option.some.injEq,
      List.cons.injEq, and_true]
    omega
  | case3 b0 b1 =>
    intro h
    have hb0 : b0 < 256 := h b0 (by simp)
    have hb1 : b1 < 256 := h b1 (by simp)
    have h0 : b64Val (b64Char (b0 / 4)) = some (b0 / 4) :=
      b64Val_b64Char _ (by omega)
    have h1 : b64Val (b64Char (b0 % 4 * 16 + b1 / 16)) =
        some (b0 % 4 * 16 + b1 / 16) := b64Val_b64Char _ (by omega)
    have h2 : b64Val (b64Char (b1 % 16 * 4)) = some (b1 % 16 * 4) :=
      b64Val_b64Char _ (by omega)
    simp only [base64urlEncode, base64urlDecode, h0, h1, h2,
      Option.some.injEq, List.cons.injEq, and_true]
    omega
  | case4 b0 b1 b2 rest ih =>
    intro h
    have hb0 : b0 < 256 := h b0 (by simp)
    have hb1 : b1 < 256 := h b1 (by simp)
    have hb2 : b2 < 256 := h b2 (by simp)
    have htail : ∀ b ∈ rest, b < 256 := fun b hb => h b (by simp [hb])
    have h0 : b64Val (b64Char (b0 / 4)) = some (b0 / 4) :=
      b64Val_b64Char _ (by omega)
    have h1 : b64Val (b64Char (b0 % 4 * 16 + b1 / 16)) =
        some (b0 % 4 * 16 + b1 / 16) := b64Val_b64Char _ (by omega)
    have h2 : b64Val (b64Char (b1 % 16 * 4 + b2 / 64)) =
        some (b1 % 16 * 4 + b2 / 64) := b64Val_b64Char _ (by omega)
    have h3 : b64Val (b64Char (b2 % 64)) = some (b2 % 64) :=
      b64Val_b64Char _ (by omega)
    have hrest := ih htail
    simp only [base64urlEncode] at hrest ⊢
    simp only [base64urlDecode, h0, h1, h2, h3, hrest, Option.some.injEq,
      List.cons.injEq, and_true]
    refine ⟨by omega, by omega, by omega⟩

theorem utf8DecF_cons_one {b : Nat} (h1 : b < 128) (fuel : Nat)
    (rest : List Nat) :
    utf8DecF (fuel + 1) (b :: rest) =
      (utf8DecF fuel rest).map (fun cs => b :: cs) := by
  simp only [utf8DecF]
  rw [if_pos h1]

theorem utf8DecF_cons_two {b b1 : Nat} (h1 : ¬ b < 128) (h2 : b < 224)
    (fuel : Nat) (rest : List Nat) :
    utf8DecF (fuel + 1) (b :: b1 :: rest) =
      (utf8DecF fuel rest).map
        (fun cs => ((b - 192) * 64 + (b1 - 128)) :: cs) := by
  simp only [utf8DecF]
  rw [if_neg h1, if_pos h2]

theorem utf8DecF_cons_three {b b1 b2 : Nat} (h1 : ¬ b < 128) (h2 : ¬ b < 224)
    (h3 : b < 240) (fuel : Nat) (rest : List Nat) :
    utf8DecF (fuel + 1) (b :: b1 :: b2 :: rest) =
      (utf8DecF fuel rest).map
        (fun cs => ((b - 224) * 4096 + (b1 - 128) * 64 + (b2 - 128)) :: cs) := by
  simp only [utf8DecF]
  rw [if_neg h1, if_neg h2, if_pos h3]

theorem utf8DecF_cons_four {b b1 b2 b3 : Nat} (h1 : ¬ b < 128)
    (h2 : ¬ b < 224) (h3 : ¬ b < 240) (fuel : Nat) (rest : List Nat) :
    utf8DecF (fuel + 1) (b :: b1 :: b2 :: b3 :: rest) =
      (utf8DecF fuel rest).map
        (fun cs => ((b - 240) * 262144 + (b1 - 128) * 4096 + (b2 - 128) * 64 +
          (b3 - 128)) :: cs) := by
  simp only [utf8DecF]
  rw [if_neg h1, if_neg h2, if_neg h3]

theorem utf8DecF_encode :
    ∀ cps : List Nat, ∀ fuel : Nat, cps.length ≤ fuel →
      (∀ c ∈ cps, c < 1114112) →
      utf8DecF fuel (cps.flatMap utf8Enc) = some cps := by
  intro cps
  induction cps with
  | nil =>
    intro fuel _ _
    cases fuel <;> rfl
  | cons n cs ih =>
    intro fuel hfuel h
    obtain ⟨f, rfl⟩ : ∃ f, fuel = f + 1 :=
      ⟨fuel - 1, by simp at hfuel; omega⟩
    have hn : n < 1114112 := h n (List.mem_cons_self _ _)
    have htail : ∀ c ∈ cs, c < 1114112 :=
      fun c hc => h c (List.mem_cons_of_mem _ hc)
    have ih' := ih f (by simp at hfuel; omega) htail
    rw [List.flatMap_cons]
    by_cases h1 : n < 128
    · rw [utf8Enc, if_pos h1, List.cons_append, List.nil_append,
        utf8DecF_cons_one h1, ih']
      rfl
    · by_cases h2 : n < 2048
      · rw [utf8Enc, if_neg h1, if_pos h2, List.cons_append, List.cons_append,
          List.nil_append, utf8DecF_cons_two (by omega) (by omega), ih']
        simp only [Option.map_some', Option.some.injEq, List.cons.injEq,
          and_true]
        omega
      · by_cases h3 : n < 65536
        · rw [utf8Enc, if_neg h1, if_neg h2, if_pos h3, List.cons_append,
            List.cons_append, List.cons_append, List.nil_append,
            utf8DecF_cons_three (by omega) (by omega) (by omega), ih']
          simp only [Option.map_some', Option.some.injEq, List.cons.injEq,
            and_true]
          omega
        · rw [utf8Enc, if_neg h1, if_neg h2, if_neg h3, List.cons_append,
            List.cons_append, List.cons_append, List.cons_append,
            List.nil_append,
            utf8DecF_cons_four (by omega) (by omega) (by omega), ih']
          simp only [Option.map_some', Option.some.injEq, List.cons.injEq,
            and_true]
          omega

theorem one_le_length_utf8Enc (n : Nat) : 1 ≤ (utf8Enc n).length := by
  unfold utf8Enc
  split
  · simp
  · split
    · simp
    · split
      · simp
      · simp

theorem length_le_length_flatMap (cps : List Nat) :
    cps.length ≤ (cps.flatMap utf8Enc).length := by
  induction cps with
  | nil => simp
  | cons n cs ih =>
    rw [List.flatMap_cons, List.length_append, List.length_cons]
    have := one_le_length_utf8Enc n
    omega

theorem utf8Dec_encode (cps : List Nat) (h : ∀ c ∈ cps, c < 1114112) :
    utf8Dec (cps.flatMap utf8Enc) = some cps :=
  utf8DecF_encode cps _ (length_le_length_flatMap cps) h

theorem utf8Enc_lt_256 {n : Nat} (hn : n < 1114112) :
    ∀ b ∈ utf8Enc n, b < 256 := by
  intro b hb
  unfold utf8Enc at hb
  split at hb
  · simp only [List.mem_singleton] at hb
    omega
  · split at hb
    · simp only [List.mem_cons, List.not_mem_nil, or_false] at hb
      rcases hb with rfl | rfl <;> omega
    · split at hb
      · simp only [List.mem_cons, List.not_mem_nil, or_false] at hb
        rcases hb with rfl | rfl | rfl <;> omega
      · simp only [List.mem_cons, List.not_mem_nil, or_false] at hb
        rcases hb with rfl | rfl | rfl | rfl <;> omega

theorem char_toNat_lt (c : Char) : c.toNat < 1114112 := by
  rcases c.valid with h | ⟨_, h⟩
  · exact Nat.lt_trans h (by omega)
  · exact h

theorem char_toNat_injective {c d : Char} (h : c.toNat = d.toNat) : c = d :=
  Char.ext_iff.mpr (UInt32.ext h)

theorem flatMap_map_toNat (l : List Char) :
    l.flatMap (fun c => utf8Enc c.toNat) = (l.map Char.toNat).flatMap utf8Enc := by
  induction l with
  | nil => rfl
  | cons c cs ih => simp only [List.flatMap_cons, List.map_cons, ih]

theorem string_data_append (a b : String) :
    (a ++ b).data = a.data ++ b.data := by
  cases a
  cases b
  rfl

theorem base64urlOfString_inj {u1 u2 : String}
    (h : base64urlOfString u1 = base64urlOfString u2) : u1 = u2 := by
  have hdata : base64urlEncode (utf8Bytes u1) = base64urlEncode (utf8Bytes u2) :=
    congrArg String.data h
  have hb : ∀ u : String, ∀ b ∈ utf8Bytes u, b < 256 := by
    intro u b hbmem
    obtain ⟨c, _, hbc⟩ := List.mem_flatMap.mp hbmem
    exact utf8Enc_lt_256 (char_toNat_lt c) b hbc
  have hd1 := base64urlDecode_encode _ (hb u1)
  have hd2 := base64urlDecode_encode _ (hb u2)
  rw [hdata, hd2] at hd1
  have hbytes : utf8Bytes u2 = utf8Bytes u1 := Option.some.inj hd1
  have hmap : ∀ u : String, ∀ c ∈ u.data.map Char.toNat, c < 1114112 := by
    intro u c hc
    obtain ⟨ch, _, rfl⟩ := List.mem_map.mp hc
    exact char_toNat_lt ch
  have hu1 := utf8Dec_encode (u1.data.map Char.toNat) (hmap u1)
  have hu2 := utf8Dec_encode (u2.data.map Char.toNat) (hmap u2)
  rw [← flatMap_map_toNat] at hu1 hu2
  show u1 = u2
  have hflat : u1.data.flatMap (fun c => utf8Enc c.toNat) =
      u2.data.flatMap (fun c => utf8Enc c.toNat) := hbytes.symm
  rw [hflat, hu2] at hu1
  have hmaps : u2.data.map Char.toNat = u1.data.map Char.toNat :=
    Option.some.inj hu1
  have hdatas : u2.data = u1.data :=
    List.map_injective_iff.mpr (fun a b hab => char_toNat_injective hab) hmaps
  cases u1
  cases u2
  cases hdatas
  rfl

theorem makeId_inj {sid u1 u2 : String} (h : makeId sid u1 = makeId sid u2) :
    u1 = u2 := by
  unfold makeId at h
  have hd := congrArg String.data h
  rw [string_data_append, string_data_append, string_data_append,
    string_data_append] at hd
  have henc : (base64urlOfString u1).data = (base64urlOfString u2).data :=
    List.append_cancel_left hd
  apply base64urlOfString_inj
  cases he1 : base64urlOfString u1
  cases he2 : base64urlOfString u2
  rw [he1, he2] at henc
  cases henc
  rfl

/-- C8: the event id is a pure function of the pair (sourceId, url) — any
two normalizations with the same source id and the same url produce the same
id, regardless of every other field of the source or the item — and for a
fixed source id, normalizations of items with distinct urls produce distinct
ids. -/
theorem c8_id_pure_injective (jd1 jd2 : JSDate) (s1 s2 : EventSource)
    (i1 i2 : RawItem) (e1 e2 : WorldEvent)
    (h1 : normalizeEvent jd1 s1 i1 = Except.ok (some e1))
    (h2 : normalizeEvent jd2 s2 i2 = Except.ok (some e2))
    (hs : s1.id = s2.id) :
    (e1.url = e2.url → e1.id = e2.id) ∧ (e1.url ≠ e2.url → e1.id ≠ e2.id) := by
  have k1 := normalizeEvent_ok_some h1
  have k2 := normalizeEvent_ok_some h2
  have hid1 : e1.id = makeId s1.id e1.url := by
    rw [k1.2.1, ← k1.1]
  have hid2 : e2.id = makeId s2.id e2.url := by
    rw [k2.2.1, ← k2.1]
  constructor
  · intro hu
    rw [hid1, hid2, hs, hu]
  · intro hu hcontra
    rw [hid1, hid2, ← hs] at hcontra
    exact hu (makeId_inj hcontra)

/-- Witness for C8: two items with the same url under sources sharing the id
`s1` get identical ids; an item with a different url gets a different id. -/
theorem c8_witness : evC8a.id = evC8b.id ∧ evC8a.id ≠ evC8c.id :=
  ⟨(c8_id_pure_injective jdW jdW srcW1 srcW1b itemC8a itemC8b evC8a evC8b
      (by decide) (by decide) rfl).1 rfl,
   (c8_id_pure_injective jdW jdW srcW1 srcW1 itemC8a itemC8c evC8a evC8c
      (by decide) (by decide) rfl).2 (by decide)⟩
